import Mathlib

/-!
Verification development for the Obsidian "Underliner" plugin's rule/scan
engine.  The TypeScript sources are embedded shallowly: documents and
fragments are `List Char`, JavaScript string primitives (`substring`,
`replaceAll`, regex `exec`) are modelled by executable Lean functions with
the documented JavaScript semantics, and each pattern-matcher class becomes
a structure together with functions mirroring its methods.
-/

namespace Underliner

/-- A CodeMirror `SelectionRange`, reduced to the two offsets the engine
reads.  The TypeScript field names `from`/`to` are Lean keywords, hence the
trailing underscores. -/
structure SelectionRange where
  from_ : Nat
  to_ : Nat
deriving DecidableEq, Repr

/-- `outsideSelections(sr, left, right)` from `src/src/patterns.ts`
(lines 218-228); the identical function appears in `src/main.ts`
(lines 189-199) and `src/unnamed/part_001` (lines 358-368).  The loop
returns `false` as soon as one selection satisfies either condition,
otherwise `true`:

    for (const r of sr) {
      if (r.from >= left && r.to <= right) return false;
      if (r.to >= left && r.to <= right) return false;
    }
    return true;
-/
def outsideSelections (sr : List SelectionRange) (left right : Nat) : Bool :=
  match sr with
  | [] => true
  | r :: rest =>
    if left ≤ r.from_ ∧ r.to_ ≤ right then false
    else if left ≤ r.to_ ∧ r.to_ ≤ right then false
    else outsideSelections rest left right

/-- JavaScript `String.prototype.substring(a, b)` on a `List Char` model:
both indices are clamped into `[0, length]` and swapped when the start
exceeds the end.  Call sites pass `Nat` arguments; the source's only
possibly-negative argument (`match.length - rmv` in `getReplacement`) is
clamped to `0` by JavaScript, which truncated `Nat` subtraction reproduces
exactly. -/
def jsSubstring (s : List Char) (a b : Nat) : List Char :=
  let a' := min a s.length
  let b' := min b s.length
  if a' ≤ b' then (s.take b').drop a' else (s.take a').drop b'

/-- The `EdgeInserter` record type of `src/unnamed/part_001` (lines 26-29):
text to insert at one edge and a count of characters to trim. -/
structure EdgeInserter where
  txt : List Char
  rmv : Nat
deriving DecidableEq, Repr

/-- Configuration of `GeneralPatternMatcher` (`src/unnamed/part_001`,
lines 31-53).  The `match` regex itself lives outside the embedding: scan
functions take the regex's matching semantics as a function argument.  The
constructor's `left || { txt: "", rmv: 0 }` defaulting happens at
construction sites. -/
structure GeneralPatternMatcher where
  attributes : Option (List (List Char × List Char))
  elem : List Char
  left : EdgeInserter
  right : EdgeInserter
  keepMatch : Bool

/-- `GeneralPatternMatcher.getReplacement` (`src/unnamed/part_001`,
lines 55-67):

    let middleText = "";
    if (this.keepMatch) {
      middleText = match;
      middleText = middleText.substring(
        this.left.rmv, middleText.length - this.right.rmv);
    }
    return this.left.txt + middleText + this.right.txt;

(`match` is a Lean keyword, hence `match_`.) -/
def GeneralPatternMatcher.getReplacement (g : GeneralPatternMatcher)
    (match_ : List Char) : List Char :=
  let middleText : List Char :=
    if g.keepMatch then jsSubstring match_ g.left.rmv (match_.length - g.right.rmv)
    else []
  g.left.txt ++ middleText ++ g.right.txt

/-- The spec's slice notation `m[lt : len(m)-rt]` ("the captured text with
`leftTrim`/`rightTrim` characters removed from each edge"), written from
the spec's words for comparison with the source's `getReplacement`: the
slice is empty when the two trims overlap. -/
def specTrimSlice (m : List Char) (lt rt : Nat) : List Char :=
  (m.take (m.length - rt)).drop lt

/-- `ReplacementPattern` of `src/src/patterns.ts` (lines 100-140), reduced
to the two strings its `getDecorator` reads.  `from`/`to` are Lean
keywords, hence the underscores. -/
structure ReplacementPattern where
  from_ : List Char
  to_ : List Char

/-- A produced decoration: the replaced span `[left, right)` and the text
handed to the widget that renders in its place. -/
structure Deco where
  left : Nat
  right : Nat
  content : List Char
deriving DecidableEq, Repr

/-- `ReplacementPattern.getDecorator` (`src/src/patterns.ts`,
lines 111-131): succeed only when the document continues with `from` at
`index` and the span is outside every selection; the widget carries the
configured `to` text. -/
def ReplacementPattern.getDecorator (p : ReplacementPattern)
    (sel : List SelectionRange) (doc : List Char) (index : Nat) : Option Deco :=
  if ¬ p.from_.isPrefixOf (jsSubstring doc index doc.length) then none
  else if ¬ outsideSelections sel index (index + p.from_.length) then none
  else some ⟨index, index + p.from_.length, p.to_⟩

end Underliner

namespace Underliner

/-- Claim C1: a selection that fully covers a candidate span is claimed to
make `outsideSelections` return `false`, suppressing the decoration.  The
code does the opposite: with the selection `[0,10]` strictly covering the
candidate `[2,7)` the guard returns `true`, and a concrete scan
(`ReplacementPattern("--","&mdash;")` on `"ab--cdefgh"` at index 2, whose
match span `[2,4)` is also fully covered by `[0,10]`) emits the
decoration anyway. -/
theorem covering_selection_not_suppressed :
    outsideSelections [⟨0, 10⟩] 2 7 = true ∧
    ReplacementPattern.getDecorator ⟨"--".toList, "&mdash;".toList⟩
      [⟨0, 10⟩] ("ab--cdefgh".toList) 2 = some ⟨2, 4, "&mdash;".toList⟩ := by
  constructor
  · decide
  · decide

/-- Claim C2: `outsideSelections sr left right` is `false` exactly when
some selection has its end inside `[left, right]` (boundary-inclusive) or
satisfies `s.from ≥ left ∧ s.to ≤ right`; in particular a selection exactly
covering `[2,7)` against the candidate `[2,7)` yields `false`. -/
theorem outsideSelections_false_iff :
    (∀ (sr : List SelectionRange) (left right : Nat),
      outsideSelections sr left right = false ↔
        ∃ r ∈ sr, (left ≤ r.to_ ∧ r.to_ ≤ right) ∨
          (left ≤ r.from_ ∧ r.to_ ≤ right)) ∧
    outsideSelections [⟨2, 7⟩] 2 7 = false := by
  constructor
  · intro sr left right
    induction sr with
    | nil => simp [outsideSelections]
    | cons r rest ih =>
      by_cases h1 : left ≤ r.from_ ∧ r.to_ ≤ right
      · constructor
        · intro _
          exact ⟨r, List.mem_cons_self r rest, Or.inr h1⟩
        · intro _
          simp [outsideSelections, h1]
      · by_cases h2 : left ≤ r.to_ ∧ r.to_ ≤ right
        · constructor
          · intro _
            exact ⟨r, List.mem_cons_self r rest, Or.inl h2⟩
          · intro _
            simp [outsideSelections, h1, h2]
        · simp only [outsideSelections, if_neg h1, if_neg h2]
          rw [ih]
          constructor
          · rintro ⟨s, hs, hcond⟩
            exact ⟨s, List.mem_cons_of_mem r hs, hcond⟩
          · rintro ⟨s, hs, hcond⟩
            rcases List.mem_cons.mp hs with hh | ht
            · subst hh
              rcases hcond with hc | hc
              · exact absurd hc h2
              · exact absurd hc h1
            · exact ⟨s, ht, hcond⟩
  · decide

/-- Claim C4: with `keepMatch = false` the rendered replacement ignores the
matched substring entirely: any two matches render identically. -/
theorem getReplacement_nokeep_const :
    ∀ (g : GeneralPatternMatcher) (m1 m2 : List Char),
      g.keepMatch = false →
      g.getReplacement m1 = g.getReplacement m2 := by
  intro g m1 m2 h
  simp [GeneralPatternMatcher.getReplacement, h]

/-- The `/---/  →  &mdash;` rule configured in `src/unnamed/part_002`
(lines 71-78): `left = { txt: "&mdash;", rmv: 1 }`, right edge defaulted,
`keepMatch = false`. -/
def mdashRule : GeneralPatternMatcher :=
  ⟨none, [], ⟨"&mdash;".toList, 1⟩, ⟨[], 0⟩, false⟩

/-- Witness for C4: the configured em-dash rule renders `"---"` and `"--"`
to the same content. -/
theorem getReplacement_nokeep_const_witness :
    mdashRule.getReplacement ("---".toList) = mdashRule.getReplacement ("--".toList) :=
  getReplacement_nokeep_const mdashRule ("---".toList) ("--".toList) rfl

/-- Counterexample for C3: the claim's formula fails when the trims
overlap.  With `keepMatch = true`, trims `(2,2)`, inserts `"L"`/`"R"` and
the matched string `"ab"`, the code renders `"LabR"` (JavaScript
`substring` clamps the negative end index to `0` and swaps the arguments),
while the claimed `L + m[2 : 0] + R` is `"LR"`. -/
theorem getReplacement_slice_cex :
    GeneralPatternMatcher.getReplacement ⟨none, [], ⟨"L".toList, 2⟩, ⟨"R".toList, 2⟩, true⟩
        ("ab".toList) ≠
      "L".toList ++ specTrimSlice ("ab".toList) 2 2 ++ "R".toList := by
  decide

/-- Claim C3 (amended): with `keepMatch = true` and trims that fit inside
the match (`lt + rt ≤ len(m)`), the rendered content is
`leftInsert ++ m[lt : len(m)-rt] ++ rightInsert`. -/
theorem getReplacement_keep_eq_slice :
    ∀ (g : GeneralPatternMatcher) (m : List Char),
      g.keepMatch = true →
      g.left.rmv + g.right.rmv ≤ m.length →
      g.getReplacement m =
        g.left.txt ++ specTrimSlice m g.left.rmv g.right.rmv ++ g.right.txt := by
  intro g m hk hle
  simp only [GeneralPatternMatcher.getReplacement, hk, if_pos, specTrimSlice]
  congr 2
  simp only [jsSubstring]
  have h1 : min g.left.rmv m.length = g.left.rmv := by omega
  have h2 : min (m.length - g.right.rmv) m.length = m.length - g.right.rmv := by omega
  rw [h1, h2, if_pos (by omega)]

/-- The underline rule `/-[^\n]+?-/` configured in `src/unnamed/part_002`
(lines 90-97): trim one character from each edge, keep the match. -/
def underlineRule : GeneralPatternMatcher :=
  ⟨none, "u".toList, ⟨[], 1⟩, ⟨[], 1⟩, true⟩

/-- Witness for C3: the underline rule on the match `"-hi-"` renders the
trimmed slice between the (empty) inserts. -/
theorem getReplacement_keep_eq_slice_witness :
    underlineRule.getReplacement ("-hi-".toList) =
      [] ++ specTrimSlice ("-hi-".toList) 1 1 ++ [] :=
  getReplacement_keep_eq_slice underlineRule ("-hi-".toList) rfl (by decide)

/-- Claim C10: `getReplacement` is total even when the trims exceed the
match length; for a length-2 match with trims `(2,2)` the clamp-and-swap
semantics of `substring` keeps the whole match as the middle text. -/
theorem getReplacement_overtrim_keeps_match :
    ∀ (g : GeneralPatternMatcher) (m : List Char),
      g.keepMatch = true → g.left.rmv = 2 → g.right.rmv = 2 → m.length = 2 →
      g.getReplacement m = g.left.txt ++ m ++ g.right.txt := by
  intro g m hk hl hr hm
  simp only [GeneralPatternMatcher.getReplacement, hk, if_pos, hl, hr, hm]
  congr 2
  simp only [jsSubstring, hm]
  norm_num
  omega

/-- Witness for C10: concrete overflow instance, match `"ab"` with trims
`(2,2)` and empty inserts renders `"ab"` itself. -/
theorem getReplacement_overtrim_keeps_match_witness :
    GeneralPatternMatcher.getReplacement ⟨none, [], ⟨[], 2⟩, ⟨[], 2⟩, true⟩ ("ab".toList) =
      [] ++ "ab".toList ++ [] :=
  getReplacement_overtrim_keeps_match ⟨none, [], ⟨[], 2⟩, ⟨[], 2⟩, true⟩ ("ab".toList)
    rfl rfl rfl (by decide)

/-- JavaScript `String.prototype.replaceAll` with a nonempty literal search
string: the leftmost occurrence is replaced, scanning resumes after the
replacement (the replacement text is not rescanned), left to right,
non-overlapping.  Structured with explicit fuel so that the function
reduces in the kernel; every step consumes at least one character of the
remaining input, so fuel equal to the input length is always sufficient
(the fuel-exhausted branch returns the rest unchanged and is unreachable
from `replaceAll`).  The empty-pattern case (JavaScript would interleave
the replacement between all characters) is not exercised by the sources,
which only pass nonempty literals; here it leaves the input unchanged. -/
def replaceAllAux (pat rep : List Char) : Nat → List Char → List Char
  | 0, s => s
  | fuel + 1, s =>
    match s with
    | [] => []
    | c :: rest =>
      if pat ≠ [] ∧ pat.isPrefixOf (c :: rest) then
        rep ++ replaceAllAux pat rep fuel ((c :: rest).drop pat.length)
      else c :: replaceAllAux pat rep fuel rest

/-- `s.replaceAll(pat, rep)` for a literal `pat`. -/
def replaceAll (pat rep s : List Char) : List Char :=
  replaceAllAux pat rep s.length s

/-- `Underliner.expandDash` (`src/main.ts`, lines 65-69): the static-mode
post-processor replaces every `--` in the fragment's inner HTML with
`&mdash;`. -/
def expandDash (innerHTML : List Char) : List Char :=
  replaceAll ("--".toList) ("&mdash;".toList) innerHTML

/-- The static-mode driver of `src/unnamed/part_002` (lines 51-55)
specialised to literal-replacement rules: each rule in configured order
performs a fragment-wide `replaceAll` on the *current* fragment value, so
later rules scan the output of earlier rules. -/
def applyRulesStatic (rules : List (List Char × List Char)) (fragment : List Char) :
    List Char :=
  rules.foldl (fun acc r => replaceAll r.1 r.2 acc) fragment

/-- Claim C6: static mode maps `"a--b"` through the literal rule
`("--", "&mdash;")` to `"a&mdash;b"`, both through the rule-chaining driver
and through `expandDash` itself. -/
theorem static_literal_mdash :
    applyRulesStatic [("--".toList, "&mdash;".toList)] ("a--b".toList) =
        "a&mdash;b".toList ∧
      expandDash ("a--b".toList) = "a&mdash;b".toList := by
  constructor
  · decide
  · decide

/-- `Formatter.getDecorators` of `src/unnamed/part_001` (lines 151-172):
the body opens with `return [];`, so the matching code after it (which
also references an undeclared variable `index`) is unreachable:

    ): Range<Decoration>[] {
      return [];
      const pattern_start = new RegExp("^" + this.pattern.source);
      const results = pattern_start.exec(doc.substring(index));
      ...

The embedding is that reachable behaviour: the constant empty list. -/
def Formatter001.getDecorators (_sel : List SelectionRange) (_doc : List Char)
    (_rfrom _rto : Nat) : List Deco :=
  []

/-- `ColourPattern.getDecorators` of `src/unnamed/part_001`
(lines 308-343): likewise opens with `return [];`; the colour-function
matching loop after it is unreachable (and also references an undeclared
variable `index`).  The embedding is the reachable behaviour. -/
def ColourPattern.getDecorators (_sel : List SelectionRange) (_doc : List Char)
    (_rfrom _rto : Nat) : List Deco :=
  []

/-- Claim C9: in the `part_001` engine, `Formatter.getDecorators` and
`ColourPattern.getDecorators` contribute zero live-mode decorations for
every selection state, document and range. -/
theorem dead_scan_paths_emit_nothing :
    ∀ (sel : List SelectionRange) (doc : List Char) (rfrom rto : Nat),
      Formatter001.getDecorators sel doc rfrom rto = [] ∧
        ColourPattern.getDecorators sel doc rfrom rto = [] :=
  fun _ _ _ _ => ⟨rfl, rfl⟩

/-- One attempt of JavaScript's global-regex `exec(s)` starting from
`lastIndex = i`.  A regex is represented by its matching semantics
`tryAt s j = some l` ("a match attempt anchored at position `j` of `s`
succeeds and consumes `l` characters", the backtracking choice already
resolved); `exec` tries each position `i, i+1, ...` up to `s.length` and
returns the first success together with its position, or `null` past the
end.  Structured with explicit fuel so the function reduces in the kernel;
`s.length + 1 - i` attempts are exactly the positions `i .. s.length`, and
once the fuel is spent the position is past `s.length`, where the real
`exec` also answers `null`. -/
def jsExecGAux (tryAt : List Char → Nat → Option Nat) (s : List Char) :
    Nat → Nat → Option (Nat × Nat)
  | 0, _ => none
  | fuel + 1, i =>
    if i ≤ s.length then
      match tryAt s i with
      | some l => some (i, l)
      | none => jsExecGAux tryAt s fuel (i + 1)
    else none

/-- `exec` of a global regex on `s` with current `lastIndex = i`. -/
def jsExecG (tryAt : List Char → Nat → Option Nat) (s : List Char) (i : Nat) :
    Option (Nat × Nat) :=
  jsExecGAux tryAt s (s.length + 1 - i) i

/-- The scan loop of `GeneralPatternMatcher.getDecorators`
(`src/unnamed/part_001`, lines 93-110):

    let result = globalMatch.exec(searchString);
    while (result !== null) {
      const left = result.index + range.from;
      const right = left + result[0].length;
      if (!outsideSelections(selections, left, right)) {
        result = globalMatch.exec(searchString); continue;
      }
      const replacement_text = this.getReplacement(result[0]);
      ... push Decoration.replace(...).range(left, right) ...
      result = globalMatch.exec(searchString);
    }

After `exec` answers `(i, l)` its `lastIndex` becomes `i + l` — for a
zero-length match it therefore does not move.  The loop itself never
advances past a zero-length match, so it need not terminate; the embedding
is fuel-indexed and returns the decorations pushed so far together with a
flag telling whether the loop actually finished (`exec` returned `null`)
rather than running out of fuel. -/
def scanLoop (g : GeneralPatternMatcher) (tryAt : List Char → Nat → Option Nat)
    (sel : List SelectionRange) (rfrom : Nat) (s : List Char) :
    Nat → Nat → List Deco × Bool
  | 0, _ => ([], false)
  | fuel + 1, lastIndex =>
    match jsExecG tryAt s lastIndex with
    | none => ([], true)
    | some il =>
      let left := il.1 + rfrom
      let right := left + il.2
      let matched := (s.drop il.1).take il.2
      let pr := scanLoop g tryAt sel rfrom s fuel (il.1 + il.2)
      if outsideSelections sel left right then
        (⟨left, right, g.getReplacement matched⟩ :: pr.1, pr.2)
      else pr

/-- `GeneralPatternMatcher.getDecorators` (`src/unnamed/part_001`,
lines 80-113): scan `doc.substring(range.from, range.to)` with the rule's
pattern made global, offsetting every span by `range.from`.  `fuel` bounds
the number of loop iterations of the embedding (the source loop is
unbounded). -/
def GeneralPatternMatcher.getDecorators (g : GeneralPatternMatcher)
    (tryAt : List Char → Nat → Option Nat) (sel : List SelectionRange)
    (doc : List Char) (rfrom rto fuel : Nat) : List Deco × Bool :=
  scanLoop g tryAt sel rfrom (jsSubstring doc rfrom rto) fuel 0

/-- Matching semantics of the regex `/a*/`: at every position it succeeds,
consuming the run of `'a'`s that starts there — in particular a
zero-length match wherever the next character is not an `'a'`. -/
def tryAtAStar (s : List Char) (i : Nat) : Option Nat :=
  some ((s.drop i).takeWhile (fun c => c = 'a')).length

/-- A `GeneralPatternMatcher` configuration for the `/a*/ → ""` rule used
to exhibit the zero-length-match loop (the configuration fields do not
matter for termination). -/
def aStarRule : GeneralPatternMatcher :=
  ⟨none, [], ⟨[], 0⟩, ⟨[], 0⟩, false⟩

/-- Claim C5 fails on the code: with the zero-length-matching pattern
`/a*/` on the document `"b"` (range `[0,1)`), `exec` matches the empty
string at position 0 and leaves `lastIndex` at 0, so the scan loop of
`getDecorators` repeats the same iteration forever: no amount of fuel
makes the embedded loop reach its exit (the completion flag stays
`false`). -/
theorem zero_length_match_scan_never_finishes :
    ∀ fuel : Nat,
      (aStarRule.getDecorators tryAtAStar [] ("b".toList) 0 1 fuel).2 = false := by
  intro fuel
  have hs : jsSubstring ("b".toList) 0 1 = "b".toList := by decide
  have hexec : jsExecG tryAtAStar ("b".toList) 0 = some (0, 0) := by decide
  show (scanLoop aStarRule tryAtAStar [] 0 (jsSubstring ("b".toList) 0 1) fuel 0).2 = false
  rw [hs]
  induction fuel with
  | zero => rfl
  | succ n ih =>
    simp only [scanLoop, hexec]
    simpa using ih

/-- `isLetter(str)` of `src/src/patterns.ts` (lines 202-208) on a single
character: uppercase it and test whether its code lies between `"A"` and
`"Z"`. -/
def jsIsLetter (c : Char) : Bool :=
  decide (65 ≤ c.toUpper.toNat) && decide (c.toUpper.toNat ≤ 90)

/-- `isWhitespace(str)` of `src/src/patterns.ts` (lines 210-212) on a
single character: `str.trim() === ""`, i.e. the character is one of the
whitespace characters `trim` strips (the ASCII ones; the exotic Unicode
space characters JavaScript also strips never matter to the properties
proved here). -/
def jsIsWhitespace (c : Char) : Bool :=
  c = ' ' || c = '\t' || c = '\n' || c = '\r' || c = '\x0b' || c = '\x0c'

/-- `isLetter(doc[i])` where `doc[i]` may be out of range.  JavaScript
would throw on `undefined`; all embedded call sites guard the index first,
so the `none` branch is unreachable and answers `false`. -/
def jsIsLetterO : Option Char → Bool
  | none => false
  | some c => jsIsLetter c

/-- `isWhitespace(doc[i])` where `doc[i]` may be out of range; see
`jsIsLetterO`. -/
def jsIsWhitespaceO : Option Char → Bool
  | none => false
  | some c => jsIsWhitespace c

/-- A forward `while (p(r)) r++;` walk with explicit fuel.  Every caller
passes fuel `doc.length - r` for a condition `p` implying `r < doc.length`,
which is exactly enough: when the fuel runs out the position has reached
`doc.length`, where `p` is false and the loop would stop anyway. -/
def scanWhileAux (p : Nat → Bool) : Nat → Nat → Nat
  | 0, r => r
  | fuel + 1, r => if p r then scanWhileAux p fuel (r + 1) else r

/-- The backward walk of `MathVariables.getDecorator`
(`src/src/patterns.ts`, lines 151-153):

    let left = index - 1;
    while (left >= 0 && !isLetter(doc[left]) && !isWhitespace(doc[left]))
      left--;

Starting from a candidate position, returns the first position (walking
down) whose character is a letter or whitespace, or `none` when the walk
falls off the left edge (`left` reaching `-1`). -/
def mvScanLeft (doc : List Char) : Nat → Option Nat
  | 0 =>
    if ¬ jsIsLetterO (doc.get? 0) ∧ ¬ jsIsWhitespaceO (doc.get? 0) then none
    else some 0
  | l + 1 =>
    if ¬ jsIsLetterO (doc.get? (l + 1)) ∧ ¬ jsIsWhitespaceO (doc.get? (l + 1)) then
      mvScanLeft doc l
    else some (l + 1)

/-- Loop condition of the forward walk of `MathVariables.getDecorator`
(`src/src/patterns.ts`, lines 159-164). -/
def mvRightCond (doc : List Char) (i : Nat) : Bool :=
  decide (i < doc.length) && !(jsIsLetterO (doc.get? i)) && !(jsIsWhitespaceO (doc.get? i))

/-- The forward walk `while (right < doc.length && !isLetter(doc[right]) &&
!isWhitespace(doc[right])) right++;`. -/
def mvScanRight (doc : List Char) (r : Nat) : Nat :=
  scanWhileAux (mvRightCond doc) (doc.length - r) r

/-- Tail of `MathVariables.getDecorator` (`src/src/patterns.ts`,
lines 169-174): the selection guard and the decoration over
`[left, right + 1)` carrying `doc.substring(left, right + 1)`. -/
def MathVariables.finish (sel : List SelectionRange) (doc : List Char)
    (left right : Nat) : Option Deco :=
  if ¬ outsideSelections sel left (right + 1) then none
  else some ⟨left, right + 1, jsSubstring doc left (right + 1)⟩

/-- Middle of `MathVariables.getDecorator` (`src/src/patterns.ts`,
lines 158-167), after `left` has been fixed: run the forward walk from
`index + 1`, then

    if (right >= doc.length) right = doc.length - 1;
    else if (!isWhitespace(doc[right])) return undefined;
    else right--;
-/
def MathVariables.afterLeft (sel : List SelectionRange) (doc : List Char)
    (index left : Nat) : Option Deco :=
  if doc.length ≤ mvScanRight doc (index + 1) then
    MathVariables.finish sel doc left (doc.length - 1)
  else if ¬ jsIsWhitespaceO (doc.get? (mvScanRight doc (index + 1))) then none
  else MathVariables.finish sel doc left (mvScanRight doc (index + 1) - 1)

/-- The backward walk started at `left = index - 1`: `none` both when
`index = 0` (the walk starts at `-1`, never runs, and the `left < 0` branch
fires) and when the walk falls off the left edge. -/
def mvLeftStop (doc : List Char) (index : Nat) : Option Nat :=
  match index with
  | 0 => none
  | i + 1 => mvScanLeft doc i

/-- `MathVariables.getDecorator` (`src/src/patterns.ts`, lines 142-176;
identical in `src/main.ts`, lines 243-277).  The function is split at the
source's sequence points: the letter/denylist checks, then the backward
walk fixing `left` (a `none` stop means `left < 0`, which the source resets
to `0`), then `afterLeft`/`finish` above.  Out-of-range `doc[index]` would
throw in JavaScript; the embedding answers `none` there and the scanning
caller only passes in-range indices. -/
def MathVariables.getDecorator (sel : List SelectionRange) (doc : List Char)
    (index : Nat) : Option Deco :=
  match doc.get? index with
  | none => none
  | some c =>
    if ¬ jsIsLetter c then none
    else if c.toUpper = 'A' ∨ c.toUpper = 'I' then none
    else
      match mvLeftStop doc index with
      | none => MathVariables.afterLeft sel doc index 0
      | some l =>
        if ¬ jsIsWhitespaceO (doc.get? l) then none
        else MathVariables.afterLeft sel doc index (l + 1)

/-- Loop condition of the control-sequence walk of
`LatexEscapes.getDecorator` (`src/src/patterns.ts`, line 187). -/
def latexCond (doc : List Char) (i : Nat) : Bool :=
  decide (i < doc.length) && jsIsLetterO (doc.get? i)

/-- `let end = index + 1; while (end < doc.length && isLetter(doc[end]))
end++;`. -/
def latexScanEnd (doc : List Char) (e : Nat) : Nat :=
  scanWhileAux (latexCond doc) (doc.length - e) e

/-- `LatexEscapes.getDecorator` (`src/src/patterns.ts`, lines 178-198;
identical in `src/main.ts`, lines 279-299): a backslash followed by at
least one letter, outside the selections, decorated over
`(index, index + escapeSequence.length)` where `escapeSequence` is
`doc.substring(index, end)`. -/
def LatexEscapes.getDecorator (sel : List SelectionRange) (doc : List Char)
    (index : Nat) : Option Deco :=
  if doc.get? index ≠ some '\\' then none
  else if latexScanEnd doc (index + 1) ≤ index + 1 then none
  else if ¬ outsideSelections sel index (latexScanEnd doc (index + 1)) then none
  else
    some ⟨index, index + (jsSubstring doc index (latexScanEnd doc (index + 1))).length,
      jsSubstring doc index (latexScanEnd doc (index + 1))⟩

end Underliner

namespace Underliner

lemma scanWhileAux_ge (p : Nat → Bool) :
    ∀ fuel r, r ≤ scanWhileAux p fuel r := by
  intro fuel
  induction fuel with
  | zero => intro r; simp [scanWhileAux]
  | succ n ih =>
    intro r
    simp only [scanWhileAux]
    split
    · exact le_trans (Nat.le_succ r) (ih (r + 1))
    · exact le_refl r

lemma scanWhileAux_le (p : Nat → Bool) (B : Nat) (hp : ∀ i, p i = true → i < B) :
    ∀ fuel r, r ≤ B → scanWhileAux p fuel r ≤ B := by
  intro fuel
  induction fuel with
  | zero => intro r hr; simpa [scanWhileAux] using hr
  | succ n ih =>
    intro r hr
    simp only [scanWhileAux]
    split
    · next h => exact ih (r + 1) (hp r h)
    · exact hr

lemma mvScanLeft_le (doc : List Char) :
    ∀ i l, mvScanLeft doc i = some l → l ≤ i := by
  intro i
  induction i with
  | zero =>
    intro l h
    simp only [mvScanLeft] at h
    split at h
    · exact absurd h (by simp)
    · cases h; exact le_refl 0
  | succ n ih =>
    intro l h
    simp only [mvScanLeft] at h
    split at h
    · exact le_trans (ih l h) (Nat.le_succ n)
    · cases h; exact le_refl (n + 1)

lemma mvLeftStop_lt (doc : List Char) (index l : Nat)
    (h : mvLeftStop doc index = some l) : l < index := by
  cases index with
  | zero => exact absurd h (by simp [mvLeftStop])
  | succ i =>
    have := mvScanLeft_le doc i l h
    omega

lemma mvScanRight_ge (doc : List Char) (r : Nat) : r ≤ mvScanRight doc r :=
  scanWhileAux_ge _ _ r

lemma mvScanRight_le (doc : List Char) (r : Nat) (h : r ≤ doc.length) :
    mvScanRight doc r ≤ doc.length := by
  refine scanWhileAux_le _ doc.length ?_ _ r h
  intro i hi
  simp only [mvRightCond, Bool.and_eq_true, decide_eq_true_eq] at hi
  exact hi.1.1

lemma latexScanEnd_ge (doc : List Char) (e : Nat) : e ≤ latexScanEnd doc e :=
  scanWhileAux_ge _ _ e

lemma latexScanEnd_le (doc : List Char) (e : Nat) (h : e ≤ doc.length) :
    latexScanEnd doc e ≤ doc.length := by
  refine scanWhileAux_le _ doc.length ?_ _ e h
  intro i hi
  simp only [latexCond, Bool.and_eq_true, decide_eq_true_eq] at hi
  exact hi.1

lemma jsSubstring_length (s : List Char) (a b : Nat) (hab : a ≤ b)
    (hb : b ≤ s.length) : (jsSubstring s a b).length = b - a := by
  simp only [jsSubstring]
  rw [min_eq_left (le_trans hab hb), min_eq_left hb, if_pos hab]
  simp only [List.length_drop, List.length_take]
  omega

lemma jsExecGAux_some (tryAt : List Char → Nat → Option Nat) (s : List Char) :
    ∀ fuel i p, jsExecGAux tryAt s fuel i = some p →
      i ≤ p.1 ∧ p.1 ≤ s.length ∧ tryAt s p.1 = some p.2 := by
  intro fuel
  induction fuel with
  | zero => intro i p h; exact absurd h (by simp [jsExecGAux])
  | succ n ih =>
    intro i p h
    simp only [jsExecGAux] at h
    split at h
    · next hle =>
      cases htry : tryAt s i with
      | some l =>
        rw [htry] at h
        cases h
        exact ⟨le_refl i, hle, htry⟩
      | none =>
        rw [htry] at h
        have hrec := ih (i + 1) p h
        exact ⟨by omega, hrec.2.1, hrec.2.2⟩
    · exact absurd h (by simp)

lemma jsExecG_some (tryAt : List Char → Nat → Option Nat) (s : List Char)
    (i : Nat) (p : Nat × Nat) (h : jsExecG tryAt s i = some p) :
    i ≤ p.1 ∧ p.1 ≤ s.length ∧ tryAt s p.1 = some p.2 :=
  jsExecGAux_some tryAt s _ i p h

lemma scanLoop_spans_le (g : GeneralPatternMatcher)
    (tryAt : List Char → Nat → Option Nat) (sel : List SelectionRange)
    (rfrom : Nat) (s : List Char)
    (Hfit : ∀ i l, tryAt s i = some l → i + l ≤ s.length) :
    ∀ fuel li d, d ∈ (scanLoop g tryAt sel rfrom s fuel li).1 →
      d.left ≤ d.right ∧ d.right ≤ s.length + rfrom := by
  intro fuel
  induction fuel with
  | zero => intro li d h; exact absurd h (by simp [scanLoop])
  | succ n ih =>
    intro li d h
    simp only [scanLoop] at h
    cases hexec : jsExecG tryAt s li with
    | none => rw [hexec] at h; exact absurd h (by simp)
    | some il =>
      rw [hexec] at h
      have hfit : il.1 + il.2 ≤ s.length := by
        have hs := jsExecG_some tryAt s li il hexec
        exact Hfit il.1 il.2 hs.2.2
      by_cases hout :
          outsideSelections sel (il.1 + rfrom) (il.1 + rfrom + il.2) = true
      · simp only [hout, if_pos] at h
        rcases List.mem_cons.mp h with hd | hd
        · subst hd
          constructor
          · exact Nat.le_add_right _ _
          · simp only []
            omega
        · exact ih (il.1 + il.2) d hd
      · simp only [Bool.not_eq_true] at hout
        simp only [hout, Bool.false_eq_true, if_false] at h
        exact ih (il.1 + il.2) d h

lemma afterLeft_bounds (sel : List SelectionRange) (doc : List Char)
    (index left : Nat) (d : Deco) (hidx : index < doc.length) (hleft : left ≤ index)
    (h : MathVariables.afterLeft sel doc index left = some d) :
    d.left ≤ d.right ∧ d.right ≤ doc.length := by
  have hge : index + 1 ≤ mvScanRight doc (index + 1) := mvScanRight_ge doc (index + 1)
  have hle : mvScanRight doc (index + 1) ≤ doc.length :=
    mvScanRight_le doc (index + 1) (by omega)
  unfold MathVariables.afterLeft at h
  split at h
  · unfold MathVariables.finish at h
    split at h
    · exact absurd h (by simp)
    · cases h
      refine ⟨?_, ?_⟩ <;> (dsimp only; omega)
  · next hlt =>
    split at h
    · exact absurd h (by simp)
    · unfold MathVariables.finish at h
      split at h
      · exact absurd h (by simp)
      · cases h
        rw [not_le] at hlt
        refine ⟨?_, ?_⟩ <;> (dsimp only; omega)

/-- Claim C7: every decoration span the embedded rules produce satisfies
`left ≤ right ≤ length(doc)`.  For `GeneralPatternMatcher.getDecorators`
this holds for every matching semantics whose matches fit inside the
searched string (the JavaScript regex contract) and every scan range lying
within the document; for `MathVariables.getDecorator` and
`LatexEscapes.getDecorator` it holds unconditionally, their boundary
adjustments included (`0 ≤ left` is automatic for `Nat` offsets). -/
theorem spans_within_bounds :
    (∀ (g : GeneralPatternMatcher) (tryAt : List Char → Nat → Option Nat)
        (sel : List SelectionRange) (doc : List Char) (rfrom rto fuel : Nat),
      (∀ (s : List Char) (i l : Nat), tryAt s i = some l → i + l ≤ s.length) →
      rfrom ≤ rto → rto ≤ doc.length →
      ∀ d ∈ (g.getDecorators tryAt sel doc rfrom rto fuel).1,
        d.left ≤ d.right ∧ d.right ≤ doc.length) ∧
    (∀ (sel : List SelectionRange) (doc : List Char) (index : Nat) (d : Deco),
      MathVariables.getDecorator sel doc index = some d →
        d.left ≤ d.right ∧ d.right ≤ doc.length) ∧
    (∀ (sel : List SelectionRange) (doc : List Char) (index : Nat) (d : Deco),
      LatexEscapes.getDecorator sel doc index = some d →
        d.left ≤ d.right ∧ d.right ≤ doc.length) := by
  refine ⟨?_, ?_, ?_⟩
  · intro g tryAt sel doc rfrom rto fuel Hfit h1 h2 d hd
    have hfit : ∀ i l, tryAt (jsSubstring doc rfrom rto) i = some l →
        i + l ≤ (jsSubstring doc rfrom rto).length := fun i l h => Hfit _ i l h
    have hb := scanLoop_spans_le g tryAt sel rfrom _ hfit fuel 0 d hd
    have hlen := jsSubstring_length doc rfrom rto h1 h2
    exact ⟨hb.1, by omega⟩
  · intro sel doc index d h
    unfold MathVariables.getDecorator at h
    have hidx : index < doc.length := by
      by_contra hnl
      rw [List.get?_eq_none.mpr (by omega)] at h
      simp at h
    split at h
    · exact absurd h (by simp)
    · split at h
      · exact absurd h (by simp)
      · split at h
        · exact absurd h (by simp)
        · split at h
          · exact afterLeft_bounds sel doc index 0 d hidx (Nat.zero_le index) h
          · rename_i l hl
            split at h
            · exact absurd h (by simp)
            · have hli : l < index := mvLeftStop_lt doc index l hl
              exact afterLeft_bounds sel doc index (l + 1) d hidx (by omega) h
  · intro sel doc index d h
    unfold LatexEscapes.getDecorator at h
    split at h
    · exact absurd h (by simp)
    · next hbs =>
      have hc : doc.get? index = some '\\' := not_not.mp hbs
      have hidx : index < doc.length := by
        by_contra hnl
        rw [List.get?_eq_none.mpr (by omega)] at hc
        cases hc
      have hge := latexScanEnd_ge doc (index + 1)
      have hle := latexScanEnd_le doc (index + 1) (by omega)
      split at h
      · exact absurd h (by simp)
      · split at h
        · exact absurd h (by simp)
        · cases h
          have hlen : (jsSubstring doc index (latexScanEnd doc (index + 1))).length =
              latexScanEnd doc (index + 1) - index :=
            jsSubstring_length doc index _ (by omega) hle
          refine ⟨?_, ?_⟩ <;> (dsimp only; omega)

/-- Matching semantics of the literal-like regex `/--/`: succeed with
length 2 exactly where the next two characters are `--`. -/
def tryAtDashDash (s : List Char) (i : Nat) : Option Nat :=
  if ("--".toList).isPrefixOf (s.drop i) then some 2 else none

lemma tryAtDashDash_fit :
    ∀ (s : List Char) (i l : Nat), tryAtDashDash s i = some l → i + l ≤ s.length := by
  intro s i l h
  simp only [tryAtDashDash] at h
  split at h
  · next hpre =>
    cases h
    have hp := List.isPrefixOf_iff_prefix.mp hpre
    have hlen := hp.length_le
    simp only [List.length_drop] at hlen
    have h2 : ("--".toList).length = 2 := by decide
    omega
  · exact absurd h (by simp)

/-- Witness for C7: the three conjuncts of `spans_within_bounds`
instantiated at concrete scans — the `/--/`-style rule on `"a--b"`
(producing the span `[1,3)`), `MathVariables` on `" x "` at index 1
(span `[1,2)`), and `LatexEscapes` on `"\ab"` at index 0 (span `[0,3)`). -/
theorem spans_within_bounds_witness :
    ((1 : Nat) ≤ 3 ∧ (3 : Nat) ≤ ("a--b".toList).length) ∧
    ((1 : Nat) ≤ 2 ∧ (2 : Nat) ≤ (" x ".toList).length) ∧
    ((0 : Nat) ≤ 3 ∧ (3 : Nat) ≤ ("\\ab".toList).length) := by
  refine ⟨?_, ?_, ?_⟩
  · exact spans_within_bounds.1 mdashRule tryAtDashDash [] ("a--b".toList) 0 4 2
      tryAtDashDash_fit (by decide) (by decide)
      ⟨1, 3, "&mdash;".toList⟩ (by decide)
  · exact spans_within_bounds.2.1 [] (" x ".toList) 1 ⟨1, 2, "x".toList⟩ (by decide)
  · exact spans_within_bounds.2.2 [] ("\\ab".toList) 0 ⟨0, 3, "\\ab".toList⟩ (by decide)

/-- The `Formatter` of `src/src/patterns.ts` (lines 53-98): its compiled
pattern is represented by the pattern's source text together with the
matching semantics `tryAt` of that source's *core* (`tryAt s j = some l`
when a match attempt of the un-anchored source anchored at position `j` of
`s` succeeds consuming `l` characters).  A string pattern source is
compiled verbatim by `new RegExp(pattern)` — not escaped — so `src` is
regex source text, not a literal. -/
structure Formatter where
  src : List Char
  tryAt : List Char → Nat → Option Nat

/-- The anchoring step of the `Formatter` constructor
(`src/src/patterns.ts`, lines 71-73):

    if (!this.pattern.source.startsWith("^")) {
      this.pattern = new RegExp("^" + this.pattern.source);
    }
-/
def formatterCompileSrc (src : List Char) : List Char :=
  if src.head? = some '^' then src else '^' :: src

/-- `exec` of a non-global regex whose source starts with `^` (and has no
`m` flag): the start-of-input assertion fails at every position except 0,
so the whole search succeeds exactly when a core match attempt at position
0 does. -/
def jsExecAnchored (tryAt : List Char → Nat → Option Nat) (s : List Char) :
    Option (Nat × Nat) :=
  match tryAt s 0 with
  | some l => some (0, l)
  | none => none

/-- `Formatter.getDecorator` (`src/src/patterns.ts`, lines 78-97): run the
compiled pattern on `doc.substring(index)` and decorate
`(index, index + match.length)` — the mark branch (no element configured)
and the widget branch use the same span, and the widget carries the
matched text, so the embedding returns span plus matched text for both. -/
def Formatter.getDecorator (f : Formatter) (doc : List Char) (index : Nat) :
    Option Deco :=
  if (formatterCompileSrc f.src).head? = some '^' then
    match jsExecAnchored f.tryAt (jsSubstring doc index doc.length) with
    | none => none
    | some il =>
      some ⟨index,
        index + (((jsSubstring doc index doc.length).drop il.1).take il.2).length,
        ((jsSubstring doc index doc.length).drop il.1).take il.2⟩
  else
    match jsExecG f.tryAt (jsSubstring doc index doc.length) 0 with
    | none => none
    | some il =>
      some ⟨index,
        index + (((jsSubstring doc index doc.length).drop il.1).take il.2).length,
        ((jsSubstring doc index doc.length).drop il.1).take il.2⟩

/-- Claim C8: a `Formatter` built from a pattern source that does not
already start with `^` gets a `^` prefixed to the compiled source (kept
verbatim otherwise), and consequently every decoration it produces starts
exactly at the scan cursor: its content is the prefix of the remaining
text `doc.substring(index)` consumed by a core match at position 0 — never
text at a later position. -/
theorem formatter_anchored_matches_at_cursor :
    ∀ (src : List Char) (tryAt : List Char → Nat → Option Nat)
      (doc : List Char) (index : Nat),
      src.head? ≠ some '^' →
      formatterCompileSrc src = '^' :: src ∧
      ∀ d, Formatter.getDecorator ⟨src, tryAt⟩ doc index = some d →
        d.left = index ∧
        ∃ l, tryAt (jsSubstring doc index doc.length) 0 = some l ∧
          d.content = (jsSubstring doc index doc.length).take l ∧
          d.right = index + d.content.length := by
  intro src tryAt doc index h
  have hcomp : formatterCompileSrc src = '^' :: src := by
    simp [formatterCompileSrc, h]
  refine ⟨hcomp, ?_⟩
  intro d hd
  unfold Formatter.getDecorator at hd
  rw [hcomp] at hd
  simp only [List.head?_cons, if_pos] at hd
  cases hexec : tryAt (jsSubstring doc index doc.length) 0 with
  | none => simp [jsExecAnchored, hexec] at hd
  | some l =>
    simp only [jsExecAnchored, hexec] at hd
    cases hd
    refine ⟨rfl, l, rfl, ?_, ?_⟩
    · simp
    · simp

/-- Core matching semantics of the pattern source `TODO`: a match attempt
at a position succeeds consuming 4 characters exactly when the text there
continues with `TODO`. -/
def todoTryAt (s : List Char) (i : Nat) : Option Nat :=
  if ("TODO".toList).isPrefixOf (s.drop i) then some 4 else none

/-- Witness for C8: the `Formatter(/TODO/, {style: "color: red;"})` rule's
source gets the anchor prefixed, and on `"xxTODOyy"` at scan position 2 it
decorates exactly the four characters starting at the cursor. -/
theorem formatter_anchored_matches_at_cursor_witness :
    formatterCompileSrc ("TODO".toList) = '^' :: "TODO".toList ∧
    (⟨2, 6, "TODO".toList⟩ : Deco).left = 2 := by
  constructor
  · exact (formatter_anchored_matches_at_cursor ("TODO".toList) todoTryAt
      ("xxTODOyy".toList) 2 (by decide)).1
  · exact ((formatter_anchored_matches_at_cursor ("TODO".toList) todoTryAt
      ("xxTODOyy".toList) 2 (by decide)).2 ⟨2, 6, "TODO".toList⟩ (by decide)).1

end Underliner
